import Mathlib

/-!
Verification of the load–partition–rescale pipeline of
`customModules/myTools/waveform_tools/data_loader.py`.

The two entry points `load_data` and `load_eval_data` are embedded
shallowly.  Waveform samples, label entries and weights are modelled as
rationals (`ℚ`), so that all statistics are exact; arrays are Lean lists.

Two collaborators of `data_loader.py` are not part of the repository
sources:

* `maxTools.waveform_dataset.read_data` (the DataPartitioner), modelled
  from the spec below (`read_data`);
* `sklearn.preprocessing.StandardScaler` (the Rescaler), whose `fit`
  computes per-feature mean and population variance and whose `transform`
  applies `(x - mean) / scale` with `scale = sqrt(var)` floored to `1`
  for zero-variance features.  Since `sqrt(var)` is irrational in
  general, the fitted parameters are characterised relationally: a
  `ScaleParams` value `p` fits some rows iff `p.mean` is the list of
  feature means and each `p.scale` entry is the unique nonnegative root
  of the floored variance (`IsFitOf`).  Pipelines take the fitted
  parameters as an argument constrained by that predicate.
-/

/-- One raw detector event: a waveform (128 samples in the real data), a
fine-grained class code, a rate-normalisation weight and an id unique
within its source category. -/
structure RawRecord where
  waveform : List ℚ
  classCode : String
  weight : ℚ
  id : ℤ
  deriving DecidableEq, Repr

/-- One partition of the data: parallel arrays of waveforms, one-hot
labels, weights and ids. -/
structure Partition where
  waveforms : List (List ℚ)
  labels : List (List ℚ)
  weights : List ℚ
  ids : List ℤ
  deriving DecidableEq, Repr

/-- The triple of partitions returned by `read_data`. -/
structure DatasetBundle where
  train : Partition
  val : Partition
  test : Partition
  deriving DecidableEq, Repr

/-- One entry of a dataset catalog: a category id, the class codes kept
from that category and the per-category event cap. -/
structure DatasetSpec where
  categoryId : String
  includedClassCodes : List String
  maxEvents : ℕ
  deriving DecidableEq, Repr

/-- The training catalog of `load_data`
(`data_loader.py`, lines 38–43): three categories; the muon category
`11069` keeps only `NC`, discarding muon track events because of their
similarity to double-pulse events. -/
def trainCatalog : List DatasetSpec :=
  [⟨"11538", ["DP", "NC"], 3638⟩,
   ⟨"12034", ["CC", "NC"], 8637⟩,
   ⟨"11069", ["NC"], 7287⟩]

/-- The evaluation catalog of `load_eval_data`
(`data_loader.py`, lines 91–96): four categories, with broader class
codes and the atmospheric-muon category `11057`. -/
def evalCatalog : List DatasetSpec :=
  [⟨"11538", ["DP", "NDP", "NC"], 3638⟩,
   ⟨"12034", ["CC", "NC"], 8637⟩,
   ⟨"11069", ["NC", "CC"], 7287⟩,
   ⟨"11057", ["AM"], 74890⟩]

/-- Modelled from the spec: the RecordLoader contract (§6) is a function
from a category id to the raw records of that category; a catalog entry
keeps the records whose class code is included, capped at `maxEvents`
(first-N in load order, the deterministic policy of §9). -/
def loadCategory (loader : String → List RawRecord) (s : DatasetSpec) :
    List RawRecord :=
  ((loader s.categoryId).filter
      (fun r => s.includedClassCodes.contains r.classCode)).take s.maxEvents

/-- Modelled from the spec (§4.2, step 2): the derived binary label, a
one-hot pair — signal iff the class code is the designated double-pulse
code `DP`. -/
def labelOf (code : String) : List ℚ :=
  if code = "DP" then [1, 0] else [0, 1]

/-- Modelled from the spec (§4.2, step 3): split one category's pool
into (train, test, val) index groups by ratio; sizes
`⌊n·train_ratio⌋` and `⌊n·test_ratio⌋` with the remainder to val
(the rounding rule is an open point of §9; any rule of this take/drop
shape satisfies the claims considered here). -/
def splitRecords (trainRatio testRatio : ℚ) (l : List RawRecord) :
    List RawRecord × List RawRecord × List RawRecord :=
  let a := (Rat.floor ((l.length : ℚ) * trainRatio)).toNat
  let b := (Rat.floor ((l.length : ℚ) * testRatio)).toNat
  (l.take a, (l.drop a).take b, (l.drop a).drop b)

/-- Parallel arrays of one partition, built from its records. -/
def toPartition (rs : List RawRecord) : Partition :=
  ⟨rs.map (·.waveform), rs.map (fun r => labelOf r.classCode),
   rs.map (·.weight), rs.map (·.id)⟩

/-- Modelled from the spec: `maxTools.waveform_dataset.read_data`
(the DataPartitioner, §4.2) with `combined=True`.  Per catalog entry it
loads and caps the pool, splits it stratified by the ratios, and
concatenates the per-category slices in catalog order; `verbose`
controls diagnostic printing only (§6), modelled as the returned log.
Failure conditions (§4.2) are covered by the validity hypotheses of the
claims rather than an error monad, since no claim concerns them. -/
def read_data (verbose : Bool) (loader : String → List RawRecord)
    (specs : List DatasetSpec) (trainRatio testRatio : ℚ) :
    DatasetBundle × List String :=
  let parts := specs.map (fun s => splitRecords trainRatio testRatio (loadCategory loader s))
  (⟨toPartition ((parts.map (·.1)).flatten),
    toPartition ((parts.map (·.2.2)).flatten),
    toPartition ((parts.map (·.2.1)).flatten)⟩,
   if verbose then specs.map (fun s => s.categoryId) else [])

/-- The column of feature `i` of a waveform array. -/
def colAt (rows : List (List ℚ)) (i : ℕ) : List ℚ :=
  rows.map (fun r => r.getD i 0)

/-- The mean of feature `i` over the given rows, as `StandardScaler.fit`
computes it (`0` for no rows, by the `ℚ` convention `x / 0 = 0`). -/
def featureMean (rows : List (List ℚ)) (i : ℕ) : ℚ :=
  (colAt rows i).sum / (rows.length : ℚ)

/-- The population variance (`ddof = 0`) of feature `i` over the given
rows, as `StandardScaler.fit` computes it. -/
def featureVar (rows : List (List ℚ)) (i : ℕ) : ℚ :=
  ((colAt rows i).map (fun x => (x - featureMean rows i) ^ 2)).sum
    / (rows.length : ℚ)

/-- The squared fitted scale of feature `i`: the variance, floored to
`1` when it is `0` (sklearn `_handle_zeros_in_scale`, spec §4.3 numeric
policy). -/
def flooredVar (rows : List (List ℚ)) (i : ℕ) : ℚ :=
  if featureVar rows i = 0 then 1 else featureVar rows i

/-- The state of a fitted `StandardScaler`: per-feature mean and scale. -/
structure ScaleParams where
  mean : List ℚ
  scale : List ℚ
  deriving DecidableEq, Repr

/-- Characterises `p = StandardScaler.fit rows` over `n` features: the
means are the feature means and each scale entry is the nonnegative
square root of the floored variance (the root is taken relationally
because it is irrational in general). -/
def IsFitOf (p : ScaleParams) (rows : List (List ℚ)) (n : ℕ) : Prop :=
  p.mean.length = n ∧ p.scale.length = n ∧
  (∀ i, i < n → p.mean.getD i 0 = featureMean rows i) ∧
  (∀ i, i < n → 0 ≤ p.scale.getD i 0 ∧
    (p.scale.getD i 0) ^ 2 = flooredVar rows i)

instance (p : ScaleParams) (rows : List (List ℚ)) (n : ℕ) :
    Decidable (IsFitOf p rows n) := by
  unfold IsFitOf; infer_instance

/-- `StandardScaler.transform` on one row: `(x - mean) / scale`
featurewise. -/
def transformRow (p : ScaleParams) (row : List ℚ) : List ℚ :=
  (List.range row.length).map
    (fun i => (row.getD i 0 - p.mean.getD i 0) / p.scale.getD i 0)

/-- `StandardScaler.transform` applied to a partition's waveform array
(labels, weights and ids untouched). -/
def transformPartition (p : ScaleParams) (part : Partition) : Partition :=
  { part with waveforms := part.waveforms.map (transformRow p) }

/-- The rescaling step shared by both entry points: transform all three
partitions with the same fitted parameters. -/
def rescaleBundle (p : ScaleParams) (d : DatasetBundle) : DatasetBundle :=
  ⟨transformPartition p d.train, transformPartition p d.val,
   transformPartition p d.test⟩

/-- The boolean row mask of `load_eval_data`, line 112:
`(labels[:, 0] == 1) | (labels[:, 1] == 1)`. -/
def evalMask (labels : List (List ℚ)) : List Bool :=
  labels.map (fun l => decide (l.getD 0 0 = 1) || decide (l.getD 1 0 = 1))

/-- Boolean-mask row selection, `rows[mask]` in numpy. -/
def applyMask {α : Type} : List Bool → List α → List α
  | b :: bs, x :: xs =>
      if b then x :: applyMask bs xs else applyMask bs xs
  | _, _ => []

/-- The rows of the training partition that `load_eval_data`'s masked
`fit` sees: `data.train.waveforms[mask]` (lines 112–114). -/
def evalFitInput (d : DatasetBundle) : List (List ℚ) :=
  applyMask (evalMask d.train.labels) d.train.waveforms

/-- Embedding of `load_data` (`data_loader.py`, lines 12–63): read the
training catalog, then if `rescale` is true fit a `StandardScaler` on
the full training waveforms (`fit_transform`) and transform all three
partitions with it.  The fitted parameters `p` are passed in,
constrained by `IsFitOf p bundle.train.waveforms` in the theorems. -/
def load_data (verbose : Bool) (loader : String → List RawRecord)
    (trainRatio testRatio : ℚ) (rescale : Bool) (p : ScaleParams) :
    DatasetBundle × List String :=
  let r := read_data verbose loader trainCatalog trainRatio testRatio
  (if rescale then rescaleBundle p r.1 else r.1,
   if verbose then "Loading Data..." :: r.2 else r.2)

/-- Embedding of `load_eval_data` (`data_loader.py`, lines 65–119): read
the evaluation catalog, then if `rescale` is true fit a
`StandardScaler` on the masked training waveforms (lines 112–114) and
transform all three partitions with it.  The fitted parameters `p` are
passed in, constrained by `IsFitOf p (evalFitInput bundle)` in the
theorems. -/
def load_eval_data (verbose : Bool) (loader : String → List RawRecord)
    (trainRatio testRatio : ℚ) (rescale : Bool) (p : ScaleParams) :
    DatasetBundle × List String :=
  let r := read_data verbose loader evalCatalog trainRatio testRatio
  (if rescale then rescaleBundle p r.1 else r.1,
   if verbose then "Loading Data..." :: r.2 else r.2)

/-- An empty partition, for concrete bundles below. -/
def emptyPart : Partition := ⟨[], [], [], []⟩

/-- A concrete loader whose ids are unique within each category but
collide across categories: category `11538` uses ids 0 and 1, while
categories `12034` and `11069` reuse ids 0 and 1. -/
def collidingLoader : String → List RawRecord := fun c =>
  if c = "11538" then [⟨[1], "DP", 1, 0⟩, ⟨[2], "NC", 1, 1⟩]
  else if c = "12034" then [⟨[3], "CC", 1, 0⟩]
  else if c = "11069" then [⟨[4], "NC", 1, 1⟩]
  else []

/-- A concrete loader whose ids are unique across the whole pool. -/
def uniqueLoader : String → List RawRecord := fun c =>
  if c = "11538" then [⟨[1], "DP", 1, 0⟩, ⟨[2], "NC", 1, 1⟩]
  else if c = "12034" then [⟨[3], "CC", 1, 2⟩]
  else if c = "11069" then [⟨[4], "NC", 1, 3⟩]
  else []

/-- A concrete loader whose training partition (at the default ratios)
is a single row, so both of its features have zero variance. -/
def constLoader : String → List RawRecord := fun c =>
  if c = "11538" then [⟨[5, 5], "DP", 1, 0⟩, ⟨[5, 7], "NC", 1, 1⟩]
  else if c = "12034" then [⟨[3, 3], "CC", 1, 2⟩]
  else if c = "11069" then [⟨[4, 4], "NC", 1, 3⟩]
  else []

/-- A concrete loader with 128-sample waveforms whose training
partition (at the default ratios) is one constant row: every feature
has zero training variance. -/
def constLoader128 : String → List RawRecord := fun c =>
  if c = "11538" then
    [⟨List.replicate 128 5, "DP", 1, 0⟩, ⟨List.replicate 128 5, "NC", 1, 1⟩]
  else if c = "12034" then [⟨List.replicate 128 0, "CC", 1, 2⟩]
  else if c = "11069" then [⟨List.replicate 128 0, "NC", 1, 3⟩]
  else []

/-- A concrete loader with 128-sample waveforms whose training
partition (at the default ratios) has two rows with per-feature mean 2
and variance 1. -/
def varLoader128 : String → List RawRecord := fun c =>
  if c = "11538" then
    [⟨List.replicate 128 1, "DP", 1, 0⟩, ⟨List.replicate 128 3, "NC", 1, 1⟩,
     ⟨List.replicate 128 2, "NC", 1, 2⟩]
  else if c = "12034" then [⟨List.replicate 128 0, "CC", 1, 3⟩]
  else if c = "11069" then [⟨List.replicate 128 0, "NC", 1, 4⟩]
  else []

/-- A concrete bundle whose second training row is excluded by the
evaluation mask (its label is not 1 in either column) and sits at
offset 10 from the included rows' mean. -/
def maskDemoBundle : DatasetBundle :=
  ⟨⟨[[10], [20]], [[1, 0], [0, 0]], [1, 1], [0, 1]⟩, emptyPart, emptyPart⟩

/-- A concrete bundle with strictly one-hot training labels. -/
def oneHotBundle : DatasetBundle :=
  ⟨⟨[[1, 1], [3, 3]], [[1, 0], [0, 1]], [1, 1], [0, 1]⟩, emptyPart, emptyPart⟩

/-- A variant of `oneHotBundle` with the same training partition but
different val and test partitions. -/
def oneHotBundleAltered : DatasetBundle :=
  ⟨⟨[[1, 1], [3, 3]], [[1, 0], [0, 1]], [1, 1], [0, 1]⟩,
   ⟨[[99, 99]], [[0, 1]], [7], [42]⟩,
   ⟨[[55, 44]], [[1, 0]], [3], [41]⟩⟩

set_option maxRecDepth 100000

/-- Nonnegative square roots are unique: the fitted scale is determined
by the floored variance. -/
theorem nonneg_sqrt_unique {a b : ℚ} (ha : 0 ≤ a) (hb : 0 ≤ b)
    (h : a ^ 2 = b ^ 2) : a = b := by
  nlinarith [sq_nonneg (a - b), sq_nonneg (a + b)]

/-- C7: with `rescale` false, no transform is applied: `load_data` and
`load_eval_data` return exactly the bundle produced by the
loading/partitioning step, with all three partitions' waveform arrays
unnormalized and unchanged. -/
theorem claim_C7_no_rescale_identity :
    ∀ (verbose : Bool) (loader : String → List RawRecord)
      (trainRatio testRatio : ℚ) (p : ScaleParams),
      (load_data verbose loader trainRatio testRatio false p).1 =
        (read_data verbose loader trainCatalog trainRatio testRatio).1 ∧
      (load_eval_data verbose loader trainRatio testRatio false p).1 =
        (read_data verbose loader evalCatalog trainRatio testRatio).1 := by
  intro verbose loader trainRatio testRatio p
  exact ⟨rfl, rfl⟩

/-- C8: the `verbose` flag controls diagnostic printing only: the
bundle components of two invocations differing only in `verbose` are
equal, for both entry points and for any `rescale` setting. -/
theorem claim_C8_verbose_no_effect :
    ∀ (loader : String → List RawRecord) (trainRatio testRatio : ℚ)
      (rescale : Bool) (p : ScaleParams) (v v' : Bool),
      (load_data v loader trainRatio testRatio rescale p).1 =
        (load_data v' loader trainRatio testRatio rescale p).1 ∧
      (load_eval_data v loader trainRatio testRatio rescale p).1 =
        (load_eval_data v' loader trainRatio testRatio rescale p).1 := by
  intro loader trainRatio testRatio rescale p v v'
  exact ⟨rfl, rfl⟩

/-- C9: the training catalog has exactly three categories, its muon
category `11069` keeps only `NC` (omitting the track-like `CC` code);
the evaluation catalog has exactly four categories with broader
class-code coverage (every training category's codes are included in
the matching evaluation category's codes) and contains the
background-only atmospheric-muon category `("11057", ["AM"])`, whose id
is absent from training. -/
theorem claim_C9_catalogs :
    trainCatalog.length = 3 ∧
    (⟨"11069", ["NC"], 7287⟩ : DatasetSpec) ∈ trainCatalog ∧
    (∀ s ∈ trainCatalog, s.categoryId = "11069" →
      s.includedClassCodes = ["NC"] ∧ "CC" ∉ s.includedClassCodes) ∧
    evalCatalog.length = 4 ∧
    (⟨"11057", ["AM"], 74890⟩ : DatasetSpec) ∈ evalCatalog ∧
    (∀ s ∈ trainCatalog, s.categoryId ≠ "11057") ∧
    (∀ s ∈ trainCatalog, ∃ s' ∈ evalCatalog, s'.categoryId = s.categoryId ∧
      ∀ c ∈ s.includedClassCodes, c ∈ s'.includedClassCodes) := by
  decide

/-- The column of a waveform array has one entry per row. -/
theorem length_colAt (rows : List (List ℚ)) (i : ℕ) :
    (colAt rows i).length = rows.length := by
  simp [colAt]

/-- Entry `i` of a transformed row, for `i` within the row. -/
theorem getD_transformRow (p : ScaleParams) (row : List ℚ) (i : ℕ)
    (h : i < row.length) :
    (transformRow p row).getD i 0 =
      (row.getD i 0 - p.mean.getD i 0) / p.scale.getD i 0 := by
  unfold transformRow
  rw [List.getD_eq_getElem?_getD, List.getElem?_map, List.getElem?_range h]
  simp

/-- A transformed row keeps its length. -/
theorem length_transformRow (p : ScaleParams) (row : List ℚ) :
    (transformRow p row).length = row.length := by
  simp [transformRow]

/-- Column `i` of a transformed array, when every row covers `i`. -/
theorem colAt_map_transformRow (p : ScaleParams) (rows : List (List ℚ))
    (i : ℕ) (h : ∀ r ∈ rows, i < r.length) :
    colAt (rows.map (transformRow p)) i =
      (colAt rows i).map
        (fun x => (x - p.mean.getD i 0) / p.scale.getD i 0) := by
  unfold colAt
  rw [List.map_map, List.map_map]
  apply List.map_congr_left
  intro r hr
  simp only [Function.comp_apply]
  exact getD_transformRow p r i (h r hr)

/-- Sum of a centred, scaled column. -/
theorem sum_map_sub_div (l : List ℚ) (m s : ℚ) :
    (l.map (fun x => (x - m) / s)).sum = (l.sum - l.length * m) / s := by
  induction l with
  | nil => simp
  | cons x xs ih =>
      simp only [List.map_cons, List.sum_cons, List.length_cons, ih]
      push_cast
      rw [div_add_div_same]
      ring_nf

/-- Sum of squares of a centred, scaled column. -/
theorem sum_map_sq_div (l : List ℚ) (m s : ℚ) :
    (l.map (fun x => ((x - m) / s) ^ 2)).sum =
      (l.map (fun x => (x - m) ^ 2)).sum / s ^ 2 := by
  induction l with
  | nil => simp
  | cons x xs ih =>
      simp only [List.map_cons, List.sum_cons, ih]
      rw [div_pow, div_add_div_same]

/-- An empty row list has zero feature variance. -/
theorem featureVar_nil (i : ℕ) : featureVar [] i = 0 := by
  simp [featureVar, colAt]

/-- After transforming with correctly fitted parameters, a feature's
mean over nonempty rows is exactly 0. -/
theorem featureMean_map_transformRow (p : ScaleParams)
    (rows : List (List ℚ)) (i : ℕ)
    (hrow : ∀ r ∈ rows, i < r.length)
    (hm : p.mean.getD i 0 = featureMean rows i)
    (hn : rows ≠ []) :
    featureMean (rows.map (transformRow p)) i = 0 := by
  have h0 : rows.length ≠ 0 := fun h => hn (List.length_eq_zero.mp h)
  have hlen : ((rows.length : ℚ)) ≠ 0 := Nat.cast_ne_zero.mpr h0
  unfold featureMean
  rw [colAt_map_transformRow p rows i hrow, sum_map_sub_div, length_colAt,
    List.length_map, hm]
  simp only [featureMean]
  rw [show (rows.length : ℚ) * ((colAt rows i).sum / (rows.length : ℚ))
      = (colAt rows i).sum from by field_simp]
  simp

/-- After transforming with correctly fitted parameters, a feature with
nonzero training variance has variance exactly 1. -/
theorem featureVar_map_transformRow (p : ScaleParams)
    (rows : List (List ℚ)) (i : ℕ)
    (hrow : ∀ r ∈ rows, i < r.length)
    (hm : p.mean.getD i 0 = featureMean rows i)
    (hs : (p.scale.getD i 0) ^ 2 = featureVar rows i)
    (hv : featureVar rows i ≠ 0) :
    featureVar (rows.map (transformRow p)) i = 1 := by
  have hn : rows ≠ [] := by
    intro h
    rw [h] at hv
    exact hv (featureVar_nil i)
  have h0 : rows.length ≠ 0 := fun h => hn (List.length_eq_zero.mp h)
  have hlen : ((rows.length : ℚ)) ≠ 0 := Nat.cast_ne_zero.mpr h0
  have hmean0 := featureMean_map_transformRow p rows i hrow hm hn
  unfold featureVar
  rw [colAt_map_transformRow p rows i hrow]
  simp only [hmean0, sub_zero, List.map_map, List.length_map,
    Function.comp_def, hm]
  rw [sum_map_sq_div, hs]
  have hsum : ((colAt rows i).map
      (fun x => (x - featureMean rows i) ^ 2)).sum
      = featureVar rows i * (rows.length : ℚ) := by
    unfold featureVar
    field_simp
  rw [hsum]
  field_simp

/-- A zero-variance feature's fitted scale is floored to 1. -/
theorem scale_eq_one_of_var_zero (p : ScaleParams) (rows : List (List ℚ))
    (n i : ℕ) (hfit : IsFitOf p rows n) (hi : i < n)
    (hv : featureVar rows i = 0) :
    p.scale.getD i 0 = 1 := by
  obtain ⟨-, -, -, hsc⟩ := hfit
  obtain ⟨hpos, hsq⟩ := hsc i hi
  rw [flooredVar, if_pos hv] at hsq
  exact nonneg_sqrt_unique hpos (by norm_num) (by rw [hsq]; norm_num)

/-- With `rescale` true, `load_data`'s training waveforms are the
partitioned training waveforms mapped through the fitted transform. -/
theorem load_data_train_waveforms (verbose : Bool)
    (loader : String → List RawRecord) (trainRatio testRatio : ℚ)
    (p : ScaleParams) :
    (load_data verbose loader trainRatio testRatio true p).1.train.waveforms
      = ((read_data verbose loader trainCatalog trainRatio testRatio).1.train.waveforms).map
          (transformRow p) := rfl

/-- With `rescale` true, `load_data`'s val waveforms are the partitioned
val waveforms mapped through the fitted transform. -/
theorem load_data_val_waveforms (verbose : Bool)
    (loader : String → List RawRecord) (trainRatio testRatio : ℚ)
    (p : ScaleParams) :
    (load_data verbose loader trainRatio testRatio true p).1.val.waveforms
      = ((read_data verbose loader trainCatalog trainRatio testRatio).1.val.waveforms).map
          (transformRow p) := rfl

/-- With `rescale` true, `load_data`'s test waveforms are the
partitioned test waveforms mapped through the fitted transform. -/
theorem load_data_test_waveforms (verbose : Bool)
    (loader : String → List RawRecord) (trainRatio testRatio : ℚ)
    (p : ScaleParams) :
    (load_data verbose loader trainRatio testRatio true p).1.test.waveforms
      = ((read_data verbose loader trainCatalog trainRatio testRatio).1.test.waveforms).map
          (transformRow p) := rfl

/-- With `rescale` true, `load_eval_data`'s training waveforms are the
partitioned training waveforms mapped through the fitted transform. -/
theorem load_eval_data_train_waveforms (verbose : Bool)
    (loader : String → List RawRecord) (trainRatio testRatio : ℚ)
    (p : ScaleParams) :
    (load_eval_data verbose loader trainRatio testRatio true p).1.train.waveforms
      = ((read_data verbose loader evalCatalog trainRatio testRatio).1.train.waveforms).map
          (transformRow p) := rfl

/-- With `rescale` true, `load_eval_data`'s val waveforms are the
partitioned val waveforms mapped through the fitted transform. -/
theorem load_eval_data_val_waveforms (verbose : Bool)
    (loader : String → List RawRecord) (trainRatio testRatio : ℚ)
    (p : ScaleParams) :
    (load_eval_data verbose loader trainRatio testRatio true p).1.val.waveforms
      = ((read_data verbose loader evalCatalog trainRatio testRatio).1.val.waveforms).map
          (transformRow p) := rfl

/-- With `rescale` true, `load_eval_data`'s test waveforms are the
partitioned test waveforms mapped through the fitted transform. -/
theorem load_eval_data_test_waveforms (verbose : Bool)
    (loader : String → List RawRecord) (trainRatio testRatio : ℚ)
    (p : ScaleParams) :
    (load_eval_data verbose loader trainRatio testRatio true p).1.test.waveforms
      = ((read_data verbose loader evalCatalog trainRatio testRatio).1.test.waveforms).map
          (transformRow p) := rfl

/-- C4: a feature with zero training variance is safe under transform,
in both entry points: its fitted scale is floored to 1, all three
output partitions are the input partitions mapped through the fitted
transform, and on that feature the transform reduces to subtracting the
mean — a well-defined rational value, never a division by zero. -/
theorem claim_C4_zero_variance_floored :
    (∀ (verbose : Bool) (loader : String → List RawRecord)
       (trainRatio testRatio : ℚ) (p : ScaleParams) (n i : ℕ),
      IsFitOf p (read_data verbose loader trainCatalog trainRatio testRatio).1.train.waveforms n →
      i < n →
      featureVar (read_data verbose loader trainCatalog trainRatio testRatio).1.train.waveforms i = 0 →
      p.scale.getD i 0 = 1 ∧
      (load_data verbose loader trainRatio testRatio true p).1.train.waveforms
        = ((read_data verbose loader trainCatalog trainRatio testRatio).1.train.waveforms).map (transformRow p) ∧
      (load_data verbose loader trainRatio testRatio true p).1.val.waveforms
        = ((read_data verbose loader trainCatalog trainRatio testRatio).1.val.waveforms).map (transformRow p) ∧
      (load_data verbose loader trainRatio testRatio true p).1.test.waveforms
        = ((read_data verbose loader trainCatalog trainRatio testRatio).1.test.waveforms).map (transformRow p) ∧
      (∀ row : List ℚ, i < row.length →
        (transformRow p row).getD i 0 = row.getD i 0 - p.mean.getD i 0)) ∧
    (∀ (verbose : Bool) (loader : String → List RawRecord)
       (trainRatio testRatio : ℚ) (p : ScaleParams) (n i : ℕ),
      IsFitOf p (evalFitInput (read_data verbose loader evalCatalog trainRatio testRatio).1) n →
      i < n →
      featureVar (evalFitInput (read_data verbose loader evalCatalog trainRatio testRatio).1) i = 0 →
      p.scale.getD i 0 = 1 ∧
      (load_eval_data verbose loader trainRatio testRatio true p).1.train.waveforms
        = ((read_data verbose loader evalCatalog trainRatio testRatio).1.train.waveforms).map (transformRow p) ∧
      (load_eval_data verbose loader trainRatio testRatio true p).1.val.waveforms
        = ((read_data verbose loader evalCatalog trainRatio testRatio).1.val.waveforms).map (transformRow p) ∧
      (load_eval_data verbose loader trainRatio testRatio true p).1.test.waveforms
        = ((read_data verbose loader evalCatalog trainRatio testRatio).1.test.waveforms).map (transformRow p) ∧
      (∀ row : List ℚ, i < row.length →
        (transformRow p row).getD i 0 = row.getD i 0 - p.mean.getD i 0)) := by
  constructor
  all_goals
    intro verbose loader trainRatio testRatio p n i hfit hi hv
    have hsc := scale_eq_one_of_var_zero p _ n i hfit hi hv
    refine ⟨hsc, rfl, rfl, rfl, ?_⟩
    intro row hr
    rw [getD_transformRow p row i hr, hsc, div_one]

/-- C4 witness: a concrete run whose single training row makes feature
0 constant; the fitted scale there is 1 and the transform subtracts the
mean. -/
theorem claim_C4_witness :
    IsFitOf ⟨[5, 5], [1, 1]⟩
      (read_data true constLoader trainCatalog (4/5) (13/100)).1.train.waveforms 2 ∧
    featureVar (read_data true constLoader trainCatalog (4/5) (13/100)).1.train.waveforms 0 = 0 ∧
    (⟨[5, 5], [1, 1]⟩ : ScaleParams).scale.getD 0 0 = 1 ∧
    (∀ row : List ℚ, 0 < row.length →
      (transformRow ⟨[5, 5], [1, 1]⟩ row).getD 0 0
        = row.getD 0 0 - (⟨[5, 5], [1, 1]⟩ : ScaleParams).mean.getD 0 0) := by
  have h1 : IsFitOf ⟨[5, 5], [1, 1]⟩
      (read_data true constLoader trainCatalog (4/5) (13/100)).1.train.waveforms 2 := by
    with_unfolding_all decide
  have h2 : featureVar
      (read_data true constLoader trainCatalog (4/5) (13/100)).1.train.waveforms 0 = 0 := by
    with_unfolding_all decide
  have h := claim_C4_zero_variance_floored.1 true constLoader (4/5) (13/100)
    ⟨[5, 5], [1, 1]⟩ 2 0 h1 (by norm_num) h2
  exact ⟨h1, h2, h.1, h.2.2.2.2⟩

/-- C5 (amended): after `load_data` with rescale enabled (fit on the
full training partition, no mask), every one of the 128 features whose
training variance is nonzero has, over the training waveforms, mean
exactly 0 and variance exactly 1 (hence standard deviation 1).  The
nonzero-variance proviso is forced: a zero-variance feature transforms
to the constant 0, with standard deviation 0 (see the counterexample). -/
theorem claim_C5_standardisation (verbose : Bool)
    (loader : String → List RawRecord) (trainRatio testRatio : ℚ)
    (p : ScaleParams)
    (hfit : IsFitOf p
      (read_data verbose loader trainCatalog trainRatio testRatio).1.train.waveforms 128)
    (hlen : ∀ r ∈ (read_data verbose loader trainCatalog trainRatio testRatio).1.train.waveforms,
      r.length = 128) :
    ∀ i, i < 128 →
      featureVar (read_data verbose loader trainCatalog trainRatio testRatio).1.train.waveforms i ≠ 0 →
      featureMean (load_data verbose loader trainRatio testRatio true p).1.train.waveforms i = 0 ∧
      featureVar (load_data verbose loader trainRatio testRatio true p).1.train.waveforms i = 1 := by
  intro i hi hv
  obtain ⟨hml, hsl, hmean, hscale⟩ := hfit
  have hrow : ∀ r ∈ (read_data verbose loader trainCatalog trainRatio testRatio).1.train.waveforms,
      i < r.length := by
    intro r hr
    rw [hlen r hr]
    exact hi
  have hn : (read_data verbose loader trainCatalog trainRatio testRatio).1.train.waveforms ≠ [] := by
    intro h
    rw [h] at hv
    exact hv (featureVar_nil i)
  have hm := hmean i hi
  have hs : (p.scale.getD i 0) ^ 2
      = featureVar (read_data verbose loader trainCatalog trainRatio testRatio).1.train.waveforms i := by
    have := (hscale i hi).2
    rwa [flooredVar, if_neg hv] at this
  rw [load_data_train_waveforms]
  exact ⟨featureMean_map_transformRow p _ i hrow hm hn,
    featureVar_map_transformRow p _ i hrow hm hs hv⟩

/-- C5 counterexample: a legitimate rescale-enabled `load_data` run
(correctly fitted parameters, 128-sample waveforms) whose training
partition is one constant row; after the transform, feature 0 of the
training waveforms has variance 0, so its standard deviation is 0, not
approximately 1 — the claim fails without a nonzero-variance proviso. -/
theorem claim_C5_counterexample :
    IsFitOf ⟨List.replicate 128 5, List.replicate 128 1⟩
      (read_data true constLoader128 trainCatalog (4/5) (13/100)).1.train.waveforms 128 ∧
    (∀ r ∈ (read_data true constLoader128 trainCatalog (4/5) (13/100)).1.train.waveforms,
      r.length = 128) ∧
    featureVar (load_data true constLoader128 (4/5) (13/100) true
      ⟨List.replicate 128 5, List.replicate 128 1⟩).1.train.waveforms 0 = 0 := by
  refine ⟨?_, ?_, ?_⟩ <;> with_unfolding_all decide

/-- C5 witness: a concrete run whose two training rows give every
feature mean 2 and variance 1; after the transform, feature 0 has mean
0 and variance 1. -/
theorem claim_C5_witness :
    IsFitOf ⟨List.replicate 128 2, List.replicate 128 1⟩
      (read_data true varLoader128 trainCatalog (4/5) (13/100)).1.train.waveforms 128 ∧
    featureMean (load_data true varLoader128 (4/5) (13/100) true
      ⟨List.replicate 128 2, List.replicate 128 1⟩).1.train.waveforms 0 = 0 ∧
    featureVar (load_data true varLoader128 (4/5) (13/100) true
      ⟨List.replicate 128 2, List.replicate 128 1⟩).1.train.waveforms 0 = 1 := by
  have h1 : IsFitOf ⟨List.replicate 128 2, List.replicate 128 1⟩
      (read_data true varLoader128 trainCatalog (4/5) (13/100)).1.train.waveforms 128 := by
    with_unfolding_all decide
  have h2 : ∀ r ∈ (read_data true varLoader128 trainCatalog (4/5) (13/100)).1.train.waveforms,
      r.length = 128 := by
    with_unfolding_all decide
  have h3 : featureVar
      (read_data true varLoader128 trainCatalog (4/5) (13/100)).1.train.waveforms 0 ≠ 0 := by
    with_unfolding_all decide
  have h := claim_C5_standardisation true varLoader128 (4/5) (13/100)
    ⟨List.replicate 128 2, List.replicate 128 1⟩ h1 h2 0 (by norm_num) h3
  exact ⟨h1, h⟩

/-- Boolean-mask selection over a comparison-derived mask is a filter
over the zipped pairs. -/
theorem applyMask_map_eq_filter_zip {α β : Type} (P : β → Bool) :
    ∀ (xs : List α) (ys : List β), xs.length = ys.length →
      applyMask (ys.map P) xs
        = ((xs.zip ys).filter (fun q => P q.2)).map Prod.fst := by
  intro xs
  induction xs with
  | nil => intro ys h; cases ys <;> simp [applyMask]
  | cons x xs ih =>
      intro ys h
      cases ys with
      | nil => simp at h
      | cons y ys =>
          simp only [List.length_cons, Nat.add_right_cancel_iff] at h
          simp only [List.map_cons, applyMask, List.zip_cons_cons,
            List.filter_cons]
          by_cases hp : P y
          · simp [hp, ih ys h]
          · simp [hp, ih ys h]

/-- Boolean-mask selection commutes with mapping over the rows. -/
theorem applyMask_map {α β : Type} (f : α → β) :
    ∀ (m : List Bool) (l : List α),
      applyMask m (l.map f) = (applyMask m l).map f := by
  intro m
  induction m with
  | nil => intro l; simp [applyMask]
  | cons b bs ih =>
      intro l
      cases l with
      | nil => simp [applyMask]
      | cons x xs =>
          cases b <;> simp [applyMask, ih xs]

/-- The rows selected by a mask and by its negation partition the list:
the lengths add up. -/
theorem applyMask_length_add {α : Type} :
    ∀ (m : List Bool) (l : List α), m.length = l.length →
      (applyMask m l).length
        + (applyMask (m.map (fun b => !b)) l).length = l.length := by
  intro m
  induction m with
  | nil => intro l h; cases l <;> simp_all [applyMask]
  | cons b bs ih =>
      intro l h
      cases l with
      | nil => simp at h
      | cons x xs =>
          simp only [List.length_cons, Nat.add_right_cancel_iff] at h
          cases b <;> simp [applyMask, ← ih xs h] <;> omega

/-- The rows selected by a mask and by its negation partition the list:
the sums add up. -/
theorem applyMask_sum_add :
    ∀ (m : List Bool) (l : List ℚ), m.length = l.length →
      (applyMask m l).sum + (applyMask (m.map (fun b => !b)) l).sum
        = l.sum := by
  intro m
  induction m with
  | nil => intro l h; cases l <;> simp_all [applyMask]
  | cons b bs ih =>
      intro l h
      cases l with
      | nil => simp at h
      | cons x xs =>
          simp only [List.length_cons, Nat.add_right_cancel_iff] at h
          cases b <;> simp [applyMask, ← ih xs h] <;> ring

/-- Selecting with an all-true mask keeps every row. -/
theorem applyMask_replicate_true {α : Type} :
    ∀ l : List α, applyMask (List.replicate l.length true) l = l := by
  intro l
  induction l with
  | nil => simp [applyMask]
  | cons x xs ih => simp [List.replicate, applyMask, ih]

/-- A list of copies of one value sums to length times the value. -/
theorem sum_of_all_eq (l : List ℚ) (v : ℚ) (h : ∀ x ∈ l, x = v) :
    l.sum = l.length * v := by
  induction l with
  | nil => simp
  | cons x xs ih =>
      have hx := h x (by simp)
      have hxs := ih (fun y hy => h y (by simp [hy]))
      simp only [List.sum_cons, List.length_cons, hx, hxs]
      push_cast
      ring

/-- C3: in `load_eval_data`'s rescaling step, the mask restricts the
fit to the training rows whose label has a 1 in column 0 or column 1
(the two pure reference classes); and whenever the rows excluded by the
mask sit at a non-zero offset `c` from the included rows' mean at some
feature, the masked fit's mean differs from the unmasked fit's mean
over all training rows at that feature. -/
theorem claim_C3_mask_restriction :
    (∀ d : DatasetBundle,
      d.train.waveforms.length = d.train.labels.length →
      evalFitInput d
        = ((d.train.waveforms.zip d.train.labels).filter
            (fun q => decide (q.2.getD 0 0 = 1) || decide (q.2.getD 1 0 = 1))).map
            Prod.fst) ∧
    (∀ (d : DatasetBundle) (i : ℕ) (c : ℚ),
      d.train.waveforms.length = d.train.labels.length →
      evalFitInput d ≠ [] →
      applyMask ((evalMask d.train.labels).map (fun b => !b)) d.train.waveforms ≠ [] →
      c ≠ 0 →
      (∀ x ∈ colAt (applyMask ((evalMask d.train.labels).map (fun b => !b))
          d.train.waveforms) i,
        x = featureMean (evalFitInput d) i + c) →
      featureMean (evalFitInput d) i ≠ featureMean d.train.waveforms i) := by
  constructor
  · intro d hl
    unfold evalFitInput evalMask
    exact applyMask_map_eq_filter_zip _ d.train.waveforms d.train.labels hl
  · intro d i c hl hincl hexcl hc hoff heq
    have hml : (evalMask d.train.labels).length = d.train.waveforms.length := by
      simp [evalMask, hl]
    have hcommute : colAt (applyMask (evalMask d.train.labels) d.train.waveforms) i
        = applyMask (evalMask d.train.labels) (colAt d.train.waveforms i) :=
      (applyMask_map _ _ _).symm
    have hcommute' : colAt (applyMask ((evalMask d.train.labels).map (fun b => !b))
          d.train.waveforms) i
        = applyMask ((evalMask d.train.labels).map (fun b => !b))
            (colAt d.train.waveforms i) :=
      (applyMask_map _ _ _).symm
    have hmlc : (evalMask d.train.labels).length = (colAt d.train.waveforms i).length := by
      rw [length_colAt]; exact hml
    have hsum := applyMask_sum_add (evalMask d.train.labels)
      (colAt d.train.waveforms i) hmlc
    have hlen := applyMask_length_add (evalMask d.train.labels)
      d.train.waveforms hml
    have hk : ((applyMask (evalMask d.train.labels) d.train.waveforms).length : ℚ) ≠ 0 := by
      exact_mod_cast Nat.cast_ne_zero.mpr
        (fun h => hincl (List.length_eq_zero.mp h))
    have hj : ((applyMask ((evalMask d.train.labels).map (fun b => !b))
        d.train.waveforms).length : ℚ) ≠ 0 := by
      exact_mod_cast Nat.cast_ne_zero.mpr
        (fun h => hexcl (List.length_eq_zero.mp h))
    have hinclsum : (applyMask (evalMask d.train.labels) (colAt d.train.waveforms i)).sum
        = featureMean (evalFitInput d) i
          * ((applyMask (evalMask d.train.labels) d.train.waveforms).length : ℚ) := by
      rw [show featureMean (evalFitInput d) i
          = (colAt (evalFitInput d) i).sum / ((evalFitInput d).length : ℚ) from rfl]
      unfold evalFitInput
      rw [hcommute]
      field_simp
    have hexclsum : (applyMask ((evalMask d.train.labels).map (fun b => !b))
          (colAt d.train.waveforms i)).sum
        = ((applyMask ((evalMask d.train.labels).map (fun b => !b))
            d.train.waveforms).length : ℚ)
          * (featureMean (evalFitInput d) i + c) := by
      rw [← hcommute', sum_of_all_eq _ _ hoff, length_colAt]
    have hfinal : featureMean (evalFitInput d) i * ((d.train.waveforms.length : ℚ))
        = (colAt d.train.waveforms i).sum := by
      rw [heq, show featureMean d.train.waveforms i
          = (colAt d.train.waveforms i).sum / ((d.train.waveforms.length : ℚ)) from rfl]
      have hwne : ((d.train.waveforms.length : ℚ)) ≠ 0 := by
        have : d.train.waveforms.length ≠ 0 := by
          intro h0
          apply hincl
          unfold evalFitInput
          have : d.train.waveforms = [] := List.length_eq_zero.mp h0
          rw [this]
          cases evalMask d.train.labels <;> rfl
        exact_mod_cast Nat.cast_ne_zero.mpr this
      field_simp
    have hrlen : ((d.train.waveforms.length : ℚ))
        = ((applyMask (evalMask d.train.labels) d.train.waveforms).length : ℚ)
          + ((applyMask ((evalMask d.train.labels).map (fun b => !b))
              d.train.waveforms).length : ℚ) := by
      exact_mod_cast congrArg (Nat.cast : ℕ → ℚ) hlen.symm
    rw [hrlen] at hfinal
    have hjc : ((applyMask ((evalMask d.train.labels).map (fun b => !b))
        d.train.waveforms).length : ℚ) * c = 0 := by
      nlinarith [hfinal, hsum, hinclsum, hexclsum]
    rcases mul_eq_zero.mp hjc with h | h
    · exact hj h
    · exact hc h

/-- C3 witness: in `maskDemoBundle` the excluded row's feature 0 value
20 is the included mean 10 plus the offset 10, and the masked mean 10
differs from the unmasked mean 15. -/
theorem claim_C3_witness :
    maskDemoBundle.train.waveforms.length = maskDemoBundle.train.labels.length ∧
    evalFitInput maskDemoBundle ≠ [] ∧
    (∀ x ∈ colAt (applyMask ((evalMask maskDemoBundle.train.labels).map (fun b => !b))
        maskDemoBundle.train.waveforms) 0,
      x = featureMean (evalFitInput maskDemoBundle) 0 + 10) ∧
    featureMean (evalFitInput maskDemoBundle) 0
      ≠ featureMean maskDemoBundle.train.waveforms 0 := by
  have h1 : maskDemoBundle.train.waveforms.length
      = maskDemoBundle.train.labels.length := by
    with_unfolding_all decide
  have h2 : evalFitInput maskDemoBundle ≠ [] := by
    with_unfolding_all decide
  have h3 : applyMask ((evalMask maskDemoBundle.train.labels).map (fun b => !b))
      maskDemoBundle.train.waveforms ≠ [] := by
    with_unfolding_all decide
  have h4 : (10 : ℚ) ≠ 0 := by norm_num
  have h5 : ∀ x ∈ colAt (applyMask ((evalMask maskDemoBundle.train.labels).map
      (fun b => !b)) maskDemoBundle.train.waveforms) 0,
      x = featureMean (evalFitInput maskDemoBundle) 0 + 10 := by
    with_unfolding_all decide
  exact ⟨h1, h2, h5,
    claim_C3_mask_restriction.2 maskDemoBundle 0 10 h1 h2 h3 h4 h5⟩

/-- C10: under the one-hot label invariant (each training label row has
exactly one of its first two entries equal to 1), the mask of
`load_eval_data` selects every training row, the masked fit input is
the full training waveform array, and hence a parameter set fits the
masked input exactly when it fits the full training partition — the
evaluation rescaling computes the same scale parameters as `load_data`
would on the same training data. -/
theorem claim_C10_one_hot_mask_trivial (d : DatasetBundle)
    (hone : ∀ l ∈ d.train.labels,
      (l.getD 0 0 = 1 ∧ l.getD 1 0 ≠ 1) ∨ (l.getD 0 0 ≠ 1 ∧ l.getD 1 0 = 1))
    (hl : d.train.waveforms.length = d.train.labels.length) :
    evalMask d.train.labels = List.replicate d.train.labels.length true ∧
    evalFitInput d = d.train.waveforms ∧
    (∀ (p : ScaleParams) (n : ℕ),
      IsFitOf p (evalFitInput d) n ↔ IsFitOf p d.train.waveforms n) := by
  have hmask : evalMask d.train.labels
      = List.replicate d.train.labels.length true := by
    apply List.eq_replicate_iff.mpr
    constructor
    · simp [evalMask]
    · intro b hb
      obtain ⟨l, hlmem, rfl⟩ := List.mem_map.mp hb
      rcases hone l hlmem with ⟨h0, -⟩ | ⟨-, h1⟩
      · simp only [Bool.or_eq_true, decide_eq_true_eq]
        left
        exact h0
      · simp only [Bool.or_eq_true, decide_eq_true_eq]
        right
        exact h1
  have hinput : evalFitInput d = d.train.waveforms := by
    unfold evalFitInput
    rw [hmask, ← hl]
    exact applyMask_replicate_true d.train.waveforms
  exact ⟨hmask, hinput, fun p n => by rw [hinput]⟩

/-- C10 witness: on `oneHotBundle` the mask is all-true, the masked fit
input is the whole training array, and fitting either is the same. -/
theorem claim_C10_witness :
    (∀ l ∈ oneHotBundle.train.labels,
      (l.getD 0 0 = 1 ∧ l.getD 1 0 ≠ 1) ∨ (l.getD 0 0 ≠ 1 ∧ l.getD 1 0 = 1)) ∧
    evalMask oneHotBundle.train.labels
      = List.replicate oneHotBundle.train.labels.length true ∧
    evalFitInput oneHotBundle = oneHotBundle.train.waveforms ∧
    (∀ (p : ScaleParams) (n : ℕ),
      IsFitOf p (evalFitInput oneHotBundle) n
        ↔ IsFitOf p oneHotBundle.train.waveforms n) := by
  have h1 : ∀ l ∈ oneHotBundle.train.labels,
      (l.getD 0 0 = 1 ∧ l.getD 1 0 ≠ 1) ∨ (l.getD 0 0 ≠ 1 ∧ l.getD 1 0 = 1) := by
    with_unfolding_all decide
  have h2 : oneHotBundle.train.waveforms.length
      = oneHotBundle.train.labels.length := by
    with_unfolding_all decide
  exact ⟨h1, claim_C10_one_hot_mask_trivial oneHotBundle h1 h2⟩

/-- The three split groups concatenate back to the category pool. -/
theorem splitRecords_append (trainRatio testRatio : ℚ) (l : List RawRecord) :
    (splitRecords trainRatio testRatio l).1
      ++ ((splitRecords trainRatio testRatio l).2.1
        ++ (splitRecords trainRatio testRatio l).2.2) = l := by
  unfold splitRecords
  rw [List.take_append_drop, List.take_append_drop]

/-- As multisets, the records of the three partitions built by
`read_data` are exactly the loaded (post-cap) records of all
categories. -/
theorem read_data_records_multiset (loader : String → List RawRecord)
    (trainRatio testRatio : ℚ) :
    ∀ specs : List DatasetSpec,
      ((((specs.map (fun s => splitRecords trainRatio testRatio (loadCategory loader s))).map (·.1)).flatten : Multiset RawRecord)
       + (((specs.map (fun s => splitRecords trainRatio testRatio (loadCategory loader s))).map (·.2.1)).flatten : Multiset RawRecord)
       + (((specs.map (fun s => splitRecords trainRatio testRatio (loadCategory loader s))).map (·.2.2)).flatten : Multiset RawRecord))
      = ((specs.map (loadCategory loader)).flatten : Multiset RawRecord) := by
  intro specs
  induction specs with
  | nil => simp
  | cons s specs ih =>
      simp only [List.map_cons, List.flatten_cons]
      rw [← Multiset.coe_add, ← Multiset.coe_add, ← Multiset.coe_add,
        ← Multiset.coe_add]
      have hc : (((splitRecords trainRatio testRatio (loadCategory loader s)).1 : Multiset RawRecord)
          + ((splitRecords trainRatio testRatio (loadCategory loader s)).2.1 : Multiset RawRecord)
          + ((splitRecords trainRatio testRatio (loadCategory loader s)).2.2 : Multiset RawRecord))
          = ((loadCategory loader s : List RawRecord) : Multiset RawRecord) := by
        conv_rhs => rw [← splitRecords_append trainRatio testRatio (loadCategory loader s)]
        rw [← Multiset.coe_add, ← Multiset.coe_add]
        abel
      rw [← hc, ← ih]
      abel

/-- C2 (amended): for every valid ratio pair and every loader — any set
of loaded records whatever — the partition sizes of `load_data`'s
bundle sum to the total loaded (post-cap) record count; and whenever
the ids are additionally unique across the whole loaded pool, the three
partitions' id-sets are pairwise disjoint.  (The pool-wide uniqueness
proviso on the disjointness part is forced: per-category uniqueness
alone admits cross-category id collisions — see the counterexample.) -/
theorem claim_C2_partition_sizes_disjoint (verbose : Bool)
    (loader : String → List RawRecord) (trainRatio testRatio : ℚ)
    (h1 : 0 < trainRatio) (h2 : trainRatio < 1)
    (h3 : 0 < testRatio) (h4 : testRatio < 1)
    (h5 : trainRatio + testRatio < 1) :
    (read_data verbose loader trainCatalog trainRatio testRatio).1.train.ids.length
      + (read_data verbose loader trainCatalog trainRatio testRatio).1.val.ids.length
      + (read_data verbose loader trainCatalog trainRatio testRatio).1.test.ids.length
      = ((trainCatalog.map (loadCategory loader)).flatten).length ∧
    ((((trainCatalog.map (loadCategory loader)).flatten).map (·.id)).Nodup →
      List.Disjoint (read_data verbose loader trainCatalog trainRatio testRatio).1.train.ids
        (read_data verbose loader trainCatalog trainRatio testRatio).1.val.ids ∧
      List.Disjoint (read_data verbose loader trainCatalog trainRatio testRatio).1.train.ids
        (read_data verbose loader trainCatalog trainRatio testRatio).1.test.ids ∧
      List.Disjoint (read_data verbose loader trainCatalog trainRatio testRatio).1.val.ids
        (read_data verbose loader trainCatalog trainRatio testRatio).1.test.ids) := by
  have htr : (read_data verbose loader trainCatalog trainRatio testRatio).1.train.ids
      = (((trainCatalog.map (fun s => splitRecords trainRatio testRatio (loadCategory loader s))).map (·.1)).flatten).map (·.id) := rfl
  have hte : (read_data verbose loader trainCatalog trainRatio testRatio).1.test.ids
      = (((trainCatalog.map (fun s => splitRecords trainRatio testRatio (loadCategory loader s))).map (·.2.1)).flatten).map (·.id) := rfl
  have hva : (read_data verbose loader trainCatalog trainRatio testRatio).1.val.ids
      = (((trainCatalog.map (fun s => splitRecords trainRatio testRatio (loadCategory loader s))).map (·.2.2)).flatten).map (·.id) := rfl
  have hms := read_data_records_multiset loader trainRatio testRatio trainCatalog
  have hmsid := congrArg (Multiset.map (fun r : RawRecord => r.id)) hms
  simp only [Multiset.map_add, Multiset.map_coe] at hmsid
  have hperm : List.Perm
      (((((trainCatalog.map (fun s => splitRecords trainRatio testRatio (loadCategory loader s))).map (·.1)).flatten).map (·.id))
        ++ (((((trainCatalog.map (fun s => splitRecords trainRatio testRatio (loadCategory loader s))).map (·.2.2)).flatten).map (·.id))
          ++ ((((trainCatalog.map (fun s => splitRecords trainRatio testRatio (loadCategory loader s))).map (·.2.1)).flatten).map (·.id))))
      (((trainCatalog.map (loadCategory loader)).flatten).map (·.id)) := by
    rw [← Multiset.coe_eq_coe, ← Multiset.coe_add, ← Multiset.coe_add,
      ← hmsid]
    abel
  have hcard := congrArg Multiset.card hms
  simp only [Multiset.card_add, Multiset.coe_card] at hcard
  refine ⟨?_, ?_⟩
  · rw [htr, hva, hte]
    simp only [List.length_map]
    omega
  · intro huniq
    have hnodup := hperm.nodup_iff.mpr huniq
    rw [List.nodup_append] at hnodup
    obtain ⟨-, hbc, hd⟩ := hnodup
    rw [List.nodup_append] at hbc
    obtain ⟨-, -, hvt⟩ := hbc
    rw [List.disjoint_append_right] at hd
    refine ⟨?_, ?_, ?_⟩
    · rw [htr, hva]
      exact hd.1
    · rw [htr, hte]
      exact hd.2
    · rw [hva, hte]
      exact hvt

/-- C2 counterexample: with ids unique within each category (as the
data model guarantees) but reused across categories, a valid run at the
default ratios puts id 0 of category `11538` into train and id 0 of
category `12034` into val, so the train and val id-sets are not
disjoint — the claim fails without pool-wide id uniqueness. -/
theorem claim_C2_counterexample :
    (∀ s ∈ trainCatalog, ((loadCategory collidingLoader s).map (·.id)).Nodup) ∧
    (0 : ℚ) < 4/5 ∧ (4/5 : ℚ) < 1 ∧ (0 : ℚ) < 13/100 ∧ (13/100 : ℚ) < 1 ∧
    (4/5 : ℚ) + 13/100 < 1 ∧
    (0 : ℤ) ∈ (read_data true collidingLoader trainCatalog (4/5) (13/100)).1.train.ids ∧
    (0 : ℤ) ∈ (read_data true collidingLoader trainCatalog (4/5) (13/100)).1.val.ids ∧
    ¬ List.Disjoint
      (read_data true collidingLoader trainCatalog (4/5) (13/100)).1.train.ids
      (read_data true collidingLoader trainCatalog (4/5) (13/100)).1.val.ids := by
  have hmem : (0 : ℤ) ∈ (read_data true collidingLoader trainCatalog (4/5) (13/100)).1.train.ids
      ∧ (0 : ℤ) ∈ (read_data true collidingLoader trainCatalog (4/5) (13/100)).1.val.ids := by
    with_unfolding_all decide
  refine ⟨by with_unfolding_all decide, by with_unfolding_all decide,
    by with_unfolding_all decide, by with_unfolding_all decide,
    by with_unfolding_all decide, by with_unfolding_all decide,
    hmem.1, hmem.2, fun hdisj => hdisj hmem.1 hmem.2⟩

/-- C2 witness: at the default ratios, a loader with pool-wide unique
ids yields partitions of sizes 1, 3 and 0 summing to the 4 loaded
records, with pairwise disjoint id-sets. -/
theorem claim_C2_witness :
    (((trainCatalog.map (loadCategory uniqueLoader)).flatten).map (·.id)).Nodup ∧
    (read_data true uniqueLoader trainCatalog (4/5) (13/100)).1.train.ids.length
      + (read_data true uniqueLoader trainCatalog (4/5) (13/100)).1.val.ids.length
      + (read_data true uniqueLoader trainCatalog (4/5) (13/100)).1.test.ids.length
      = ((trainCatalog.map (loadCategory uniqueLoader)).flatten).length ∧
    List.Disjoint (read_data true uniqueLoader trainCatalog (4/5) (13/100)).1.train.ids
      (read_data true uniqueLoader trainCatalog (4/5) (13/100)).1.val.ids ∧
    List.Disjoint (read_data true uniqueLoader trainCatalog (4/5) (13/100)).1.train.ids
      (read_data true uniqueLoader trainCatalog (4/5) (13/100)).1.test.ids ∧
    List.Disjoint (read_data true uniqueLoader trainCatalog (4/5) (13/100)).1.val.ids
      (read_data true uniqueLoader trainCatalog (4/5) (13/100)).1.test.ids := by
  have huniq : (((trainCatalog.map (loadCategory uniqueLoader)).flatten).map (·.id)).Nodup := by
    with_unfolding_all decide
  have h := claim_C2_partition_sizes_disjoint true uniqueLoader (4/5) (13/100)
    (by norm_num) (by norm_num) (by norm_num) (by norm_num) (by norm_num)
  exact ⟨huniq, h.1, h.2 huniq⟩

/-- Within bounds, `getD` is the actual element. -/
theorem getD_eq_getElem_of_lt {α : Type} (l : List α) (d : α) (i : ℕ)
    (h : i < l.length) : l.getD i d = l[i] := by
  rw [List.getD_eq_getElem?_getD, List.getElem?_eq_getElem h]
  rfl

/-- Fitted parameters are uniquely determined by the fitted rows: the
means are fixed and each scale is the unique nonnegative root of the
floored variance. -/
theorem IsFitOf_unique (p p' : ScaleParams) (rows : List (List ℚ)) (n : ℕ)
    (hp : IsFitOf p rows n) (hp' : IsFitOf p' rows n) : p = p' := by
  obtain ⟨hml, hsl, hm, hsc⟩ := hp
  obtain ⟨hml', hsl', hm', hsc'⟩ := hp'
  have hmean : p.mean = p'.mean := by
    apply List.ext_getElem (by rw [hml, hml'])
    intro i h1 h2
    have hi : i < n := by rw [← hml]; exact h1
    rw [← getD_eq_getElem_of_lt p.mean 0 i h1,
      ← getD_eq_getElem_of_lt p'.mean 0 i h2, hm i hi, hm' i hi]
  have hscale : p.scale = p'.scale := by
    apply List.ext_getElem (by rw [hsl, hsl'])
    intro i h1 h2
    have hi : i < n := by rw [← hsl]; exact h1
    rw [← getD_eq_getElem_of_lt p.scale 0 i h1,
      ← getD_eq_getElem_of_lt p'.scale 0 i h2]
    exact nonneg_sqrt_unique (hsc i hi).1 (hsc' i hi).1
      (by rw [(hsc i hi).2, (hsc' i hi).2])
  cases p
  cases p'
  simp only [ScaleParams.mk.injEq]
  exact ⟨hmean, hscale⟩

/-- C6: the fitted scale parameters are a pure function of the training
partition (and, for the evaluation entry point, of its mask): on two
bundles with identical training partitions, the masked fit inputs
coincide and any correctly fitted parameter sets — unmasked or masked —
are equal, irrespective of val and test contents. -/
theorem claim_C6_no_leakage (d d' : DatasetBundle) (p p' : ScaleParams)
    (n : ℕ) (h : d.train = d'.train) :
    evalFitInput d = evalFitInput d' ∧
    (IsFitOf p d.train.waveforms n → IsFitOf p' d'.train.waveforms n →
      p = p') ∧
    (IsFitOf p (evalFitInput d) n → IsFitOf p' (evalFitInput d') n →
      p = p') := by
  have hinput : evalFitInput d = evalFitInput d' := by
    unfold evalFitInput
    rw [h]
  refine ⟨hinput, ?_, ?_⟩
  · intro hp hp'
    rw [← h] at hp'
    exact IsFitOf_unique p p' d.train.waveforms n hp hp'
  · intro hp hp'
    rw [← hinput] at hp'
    exact IsFitOf_unique p p' (evalFitInput d) n hp hp'

/-- C6 witness: two concrete bundles sharing a training partition but
with different val and test partitions have the same masked fit input,
and their correctly fitted parameters coincide. -/
theorem claim_C6_witness :
    oneHotBundle.train = oneHotBundleAltered.train ∧
    oneHotBundle.val ≠ oneHotBundleAltered.val ∧
    oneHotBundle.test ≠ oneHotBundleAltered.test ∧
    IsFitOf ⟨[2, 2], [1, 1]⟩ oneHotBundle.train.waveforms 2 ∧
    IsFitOf ⟨[2, 2], [1, 1]⟩ oneHotBundleAltered.train.waveforms 2 ∧
    evalFitInput oneHotBundle = evalFitInput oneHotBundleAltered := by
  have htr : oneHotBundle.train = oneHotBundleAltered.train := by
    with_unfolding_all decide
  have h1 : IsFitOf ⟨[2, 2], [1, 1]⟩ oneHotBundle.train.waveforms 2 := by
    with_unfolding_all decide
  have h2 : IsFitOf ⟨[2, 2], [1, 1]⟩ oneHotBundleAltered.train.waveforms 2 := by
    with_unfolding_all decide
  exact ⟨htr, by with_unfolding_all decide, by with_unfolding_all decide,
    h1, h2,
    (claim_C6_no_leakage oneHotBundle oneHotBundleAltered
      ⟨[2, 2], [1, 1]⟩ ⟨[2, 2], [1, 1]⟩ 2 htr).1⟩

/-- C1: in both entry points with rescale enabled, one parameter set
fitted on the training partition only (unmasked for `load_data`, masked
for `load_eval_data`) is applied by `transform` once to each of train,
val and test; and those fitted parameters remain correctly fitted for
any bundle with the same training partition, whatever its val and test
contents — no statistic of val or test influences them. -/
theorem claim_C1_fit_once_apply_thrice :
    (∀ (verbose : Bool) (loader : String → List RawRecord)
       (trainRatio testRatio : ℚ) (p : ScaleParams) (n : ℕ),
      IsFitOf p (read_data verbose loader trainCatalog trainRatio testRatio).1.train.waveforms n →
      (load_data verbose loader trainRatio testRatio true p).1
        = ⟨transformPartition p (read_data verbose loader trainCatalog trainRatio testRatio).1.train,
           transformPartition p (read_data verbose loader trainCatalog trainRatio testRatio).1.val,
           transformPartition p (read_data verbose loader trainCatalog trainRatio testRatio).1.test⟩ ∧
      (∀ d' : DatasetBundle,
        d'.train = (read_data verbose loader trainCatalog trainRatio testRatio).1.train →
        IsFitOf p d'.train.waveforms n)) ∧
    (∀ (verbose : Bool) (loader : String → List RawRecord)
       (trainRatio testRatio : ℚ) (p : ScaleParams) (n : ℕ),
      IsFitOf p (evalFitInput (read_data verbose loader evalCatalog trainRatio testRatio).1) n →
      (load_eval_data verbose loader trainRatio testRatio true p).1
        = ⟨transformPartition p (read_data verbose loader evalCatalog trainRatio testRatio).1.train,
           transformPartition p (read_data verbose loader evalCatalog trainRatio testRatio).1.val,
           transformPartition p (read_data verbose loader evalCatalog trainRatio testRatio).1.test⟩ ∧
      (∀ d' : DatasetBundle,
        d'.train = (read_data verbose loader evalCatalog trainRatio testRatio).1.train →
        IsFitOf p (evalFitInput d') n)) := by
  constructor
  · intro verbose loader trainRatio testRatio p n hfit
    refine ⟨rfl, ?_⟩
    intro d' h
    rw [h]
    exact hfit
  · intro verbose loader trainRatio testRatio p n hfit
    refine ⟨rfl, ?_⟩
    intro d' h
    have : evalFitInput d'
        = evalFitInput (read_data verbose loader evalCatalog trainRatio testRatio).1 := by
      unfold evalFitInput
      rw [h]
    rw [this]
    exact hfit

/-- C1 witness: a concrete `load_data` run whose correctly fitted
parameters yield the three transformed partitions, applied with the
same parameter set. -/
theorem claim_C1_witness :
    IsFitOf ⟨[1], [1]⟩
      (read_data true uniqueLoader trainCatalog (4/5) (13/100)).1.train.waveforms 1 ∧
    (load_data true uniqueLoader (4/5) (13/100) true ⟨[1], [1]⟩).1
      = ⟨transformPartition ⟨[1], [1]⟩ (read_data true uniqueLoader trainCatalog (4/5) (13/100)).1.train,
         transformPartition ⟨[1], [1]⟩ (read_data true uniqueLoader trainCatalog (4/5) (13/100)).1.val,
         transformPartition ⟨[1], [1]⟩ (read_data true uniqueLoader trainCatalog (4/5) (13/100)).1.test⟩ := by
  have h1 : IsFitOf ⟨[1], [1]⟩
      (read_data true uniqueLoader trainCatalog (4/5) (13/100)).1.train.waveforms 1 := by
    with_unfolding_all decide
  exact ⟨h1, (claim_C1_fit_once_apply_thrice.1 true uniqueLoader (4/5) (13/100)
    ⟨[1], [1]⟩ 1 h1).1⟩
